import Mathlib

/-!
Shallow embedding of the numerical core of the OnStove repository
(`src/onsstove/onsstove.py` and `src/onstove/raster.py`).

Conventions of the embedding:
* pandas numeric columns are modelled as `List ℚ` (exact rationals in
  place of IEEE doubles; the spec notes the floating-point boundary
  behaviour is an open question, so the rational model is the reference
  semantics);
* a division whose denominator is zero, which in pandas produces a
  NaN/inf value rather than an exception, is modelled by `Option ℚ`
  (`none` = the non-numeric float result);
* the `gdf` GeoDataFrame is a `List Cell`, one element per row, and a
  per-column mutation is a `List.map` over rows;
* the unbounded `while` loops of `current_elec` and `final_elec` are
  given an explicit fuel argument and return `none` on fuel exhaustion,
  so every statement about them is conditional on actual termination;
* the `net_benefit_<tech>` columns are modelled as an association list
  from the technology name (the column name with the `net_benefit_`
  prefix stripped) to the cell's value; pandas `idxmax(axis=1)` is a
  first-max-wins argmax over that list in column order.
-/

/-- Scalar configuration values read from `self.specs` in the source. -/
structure Specs where
  elecRate : ℚ              -- specs["Elec_rate"]
  ruralHHsize : ℚ           -- specs["Rural_HHsize"]
  urbanHHsize : ℚ           -- specs["Urban_HHsize"]
  populationStartYear : ℚ   -- specs["Population_start_year"]
  urbanStart : ℚ            -- specs["Urban_start"]
  deriving DecidableEq, Repr

/-- One row of `self.gdf`: the per-cell attributes the core mutates. -/
structure Cell where
  calibratedPop : ℚ         -- "Calibrated_pop"
  combinedWeight : ℚ        -- self.combined_weight at this row
  currentElec : ℕ           -- "Current_elec" (0 or 1)
  elecPopCalib : ℚ          -- "Elec_pop_calib"
  households : ℚ            -- "Households"
  isUrban : ℕ               -- "IsUrban"
  netBenefits : List (String × ℚ)  -- net_benefit_<tech> columns, in column order
  deriving DecidableEq, Repr

/-! ## Normalizer (`OnSSTOVE.normalized`, onsstove.py lines 362-369) -/

/-- pandas column max: maximum of a column, taken over a nonempty list
(the empty case defaults to `0`; theorems assume nonemptiness). -/
def colMax : List ℚ → ℚ
  | [] => 0
  | x :: xs => xs.foldl max x

/-- pandas column min. -/
def colMin : List ℚ → ℚ
  | [] => 0
  | x :: xs => xs.foldl min x

/-- Division as pandas performs it on float columns: a zero denominator
does not raise, it yields a non-numeric float (NaN or ±inf), modelled
as `none`. -/
def pdDiv (n d : ℚ) : Option ℚ :=
  if d = 0 then none else some (n / d)

/-- `OnSSTOVE.normalized(column, inverse)`:
`(max - x)/(max - min)` when `inverse`, else `(x - min)/(max - min)`,
applied elementwise to the column (the source recomputes `max` and
`min` inline in the expression). -/
def normalized (column : List ℚ) (inverse : Bool) : List (Option ℚ) :=
  if inverse then
    column.map fun x => pdDiv (colMax column - x) (colMax column - colMin column)
  else
    column.map fun x => pdDiv (x - colMin column) (colMax column - colMin column)

lemma colMax_ge (x : ℚ) (xs : List ℚ) : ∀ y ∈ x :: xs, y ≤ colMax (x :: xs) := by
  induction xs generalizing x with
  | nil =>
    intro y hy
    simp only [List.mem_singleton] at hy
    simp [colMax, hy]
  | cons b bs ih =>
    intro y hy
    have h1 : colMax (x :: b :: bs) = colMax (max x b :: bs) := rfl
    rw [h1]
    simp only [List.mem_cons] at hy
    rcases hy with rfl | rfl | hy
    · exact le_trans (le_max_left y b) (ih (max y b) (max y b) (by simp))
    · exact le_trans (le_max_right x y) (ih (max x y) (max x y) (by simp))
    · exact ih (max x b) y (List.mem_cons_of_mem _ hy)

lemma colMin_le (x : ℚ) (xs : List ℚ) : ∀ y ∈ x :: xs, colMin (x :: xs) ≤ y := by
  induction xs generalizing x with
  | nil =>
    intro y hy
    simp only [List.mem_singleton] at hy
    simp [colMin, hy]
  | cons b bs ih =>
    intro y hy
    have h1 : colMin (x :: b :: bs) = colMin (min x b :: bs) := rfl
    rw [h1]
    simp only [List.mem_cons] at hy
    rcases hy with rfl | rfl | hy
    · exact le_trans (ih (min y b) (min y b) (by simp)) (min_le_left y b)
    · exact le_trans (ih (min x y) (min x y) (by simp)) (min_le_right x y)
    · exact ih (min x b) y (List.mem_cons_of_mem _ hy)

lemma colMin_le_colMax (x : ℚ) (xs : List ℚ) :
    colMin (x :: xs) ≤ colMax (x :: xs) :=
  le_trans (colMin_le x xs x (by simp)) (colMax_ge x xs x (by simp))

/-- C7 counterexample: on the constant column `[5, 5]` (max = min) the
normalizer performs the division anyway and every output element is the
non-numeric float value (NaN), not an error signalled to the caller. -/
theorem normalized_const_is_nan :
    normalized [5, 5] false = [none, none] ∧
      none ∈ normalized [5, 5] false := by
  have h : normalized [5, 5] false = [none, none] := by
    norm_num [normalized, pdDiv, colMax, colMin]
  exact ⟨h, by rw [h]; simp⟩

/-- C7 (amended): whenever the column's max equals its min, `normalized`
performs the division anyway and returns the NaN value at every
position; no exception is raised (the function is total and returns a
column of values rather than signalling an error). -/
theorem normalized_degenerate_all_nan (column : List ℚ) (inverse : Bool)
    (h : colMax column = colMin column) :
    ∀ y ∈ normalized column inverse, y = none := by
  intro y hy
  rw [normalized] at hy
  cases inverse <;>
  · simp only [Bool.false_eq_true, if_false, if_true, List.mem_map] at hy
    obtain ⟨x, _, hx⟩ := hy
    rw [← hx]
    simp [pdDiv, h]

/-- C7 witness. -/
theorem normalized_degenerate_all_nan_witness :
    colMax [5, 5] = colMin [5, 5] ∧
      ∀ y ∈ normalized [5, 5] true, y = none :=
  ⟨by norm_num [colMax, colMin],
    normalized_degenerate_all_nan [5, 5] true (by norm_num [colMax, colMin])⟩

/-- C8: on a nonempty column with max ≠ min, every output of
`normalized` is a numeric value in [0, 1], and the inverse
normalization is pointwise one minus the direct normalization. -/
theorem normalized_range_and_complement (x : ℚ) (xs : List ℚ)
    (h : colMax (x :: xs) ≠ colMin (x :: xs)) :
    (∀ b : Bool, ∀ y ∈ normalized (x :: xs) b, ∃ v : ℚ,
        y = some v ∧ 0 ≤ v ∧ v ≤ 1) ∧
      normalized (x :: xs) true =
        (normalized (x :: xs) false).map (fun y => y.map (fun v => 1 - v)) := by
  have hlt : colMin (x :: xs) < colMax (x :: xs) :=
    lt_of_le_of_ne (colMin_le_colMax x xs) (fun hc => h hc.symm)
  have hd : colMax (x :: xs) - colMin (x :: xs) ≠ 0 := by linarith
  have hdpos : 0 < colMax (x :: xs) - colMin (x :: xs) := by linarith
  constructor
  · intro b y hy
    rw [normalized] at hy
    cases b <;>
    · simp only [Bool.false_eq_true, if_false, if_true, List.mem_map] at hy
      obtain ⟨z, hz, hzy⟩ := hy
      have hzmin := colMin_le x xs z hz
      have hzmax := colMax_ge x xs z hz
      rw [← hzy]
      simp only [pdDiv, hd, if_false]
      refine ⟨_, rfl, ?_, ?_⟩
      · apply div_nonneg <;> linarith
      · rw [div_le_one hdpos]; linarith
  · rw [normalized, normalized]
    simp only [Bool.false_eq_true, if_false, if_true, List.map_map]
    apply List.map_congr_left
    intro z _
    have hc : (colMax (x :: xs) - z) / (colMax (x :: xs) - colMin (x :: xs)) =
        1 - (z - colMin (x :: xs)) / (colMax (x :: xs) - colMin (x :: xs)) := by
      field_simp
    simp [Function.comp, pdDiv, hd, hc]

/-- C8 witness. -/
theorem normalized_range_and_complement_witness :
    colMax [(2 : ℚ), 6] ≠ colMin [(2 : ℚ), 6] ∧
      ((∀ b : Bool, ∀ y ∈ normalized [(2 : ℚ), 6] b, ∃ v : ℚ,
          y = some v ∧ 0 ≤ v ∧ v ≤ 1) ∧
        normalized [(2 : ℚ), 6] true =
          (normalized [(2 : ℚ), 6] false).map
            (fun y => y.map (fun v => 1 - v))) :=
  ⟨by norm_num [colMax, colMin],
    normalized_range_and_complement 2 [6] (by norm_num [colMax, colMin])⟩

/-! ## Electrification Calibrator Phase A
(`OnSSTOVE.current_elec`, onsstove.py lines 389-406) -/

/-- `self.gdf["Calibrated_pop"].sum()`. -/
def totalCalibPop (g : List Cell) : ℚ := (g.map Cell.calibratedPop).sum

/-- The population target `current_elec` compares against on line 399:
`total_pop * elec_rate` with `elec_rate = self.specs["Elec_rate"]`. -/
def currentElecTarget (s : Specs) (g : List Cell) : ℚ :=
  totalCalibPop g * s.elecRate

/-- `self.gdf.loc[combined_weight >= i, "Calibrated_pop"].sum()` (line 401). -/
def elecPopAt (g : List Cell) (t : ℚ) : ℚ :=
  ((g.filter fun c => decide (t ≤ c.combinedWeight)).map Cell.calibratedPop).sum

/-- `self.gdf.loc[combined_weight >= i, "Current_elec"] = 1` (line 403). -/
def markAtLeast (t : ℚ) (g : List Cell) : List Cell :=
  g.map fun c =>
    if t ≤ c.combinedWeight then { c with currentElec := 1 } else c

/-- Calibrated population of the cells currently marked `Current_elec = 1`. -/
def markedPop (g : List Cell) : ℚ :=
  ((g.filter fun c => decide (c.currentElec = 1)).map Cell.calibratedPop).sum

/-- The `while elec_pop <= total_pop * elec_rate` loop of `current_elec`
(lines 395-404), with explicit fuel; returns the final `i`, the final
`elec_pop` and the mutated table, or `none` on fuel exhaustion. -/
def currentElecLoop (target : ℚ) :
    ℕ → ℚ → ℚ → List Cell → Option (ℚ × ℚ × List Cell)
  | 0, _, _, _ => none
  | fuel + 1, i, elecPop, g =>
    if elecPop ≤ target then
      currentElecLoop target fuel (i - 1 / 10000) (elecPopAt g i) (markAtLeast i g)
    else
      some (i, elecPop, g)

/-- `OnSSTOVE.current_elec`: reset `Current_elec` to 0, start the
threshold at `i = 1` and the electrified population at 0, and run the
threshold-descent loop. -/
def current_elec (s : Specs) (fuel : ℕ) (g : List Cell) :
    Option (ℚ × ℚ × List Cell) :=
  let g0 := g.map fun c => { c with currentElec := 0 }
  currentElecLoop (currentElecTarget s g0) fuel 1 0 g0

lemma totalCalibPop_reset (g : List Cell) :
    totalCalibPop (g.map fun c => { c with currentElec := 0 }) =
      totalCalibPop g := by
  simp only [totalCalibPop, List.map_map]
  congr 1

lemma currentElecLoop_final_gt (target : ℚ) :
    ∀ (fuel : ℕ) (i e : ℚ) (g : List Cell) (i' e' : ℚ) (g' : List Cell),
      currentElecLoop target fuel i e g = some (i', e', g') → target < e' := by
  intro fuel
  induction fuel with
  | zero => intro i e g i' e' g' h; simp [currentElecLoop] at h
  | succ n ih =>
    intro i e g i' e' g' h
    rw [currentElecLoop] at h
    by_cases hc : e ≤ target
    · rw [if_pos hc] at h
      exact ih _ _ _ _ _ _ h
    · rw [if_neg hc] at h
      simp only [Option.some.injEq, Prod.mk.injEq] at h
      obtain ⟨-, he, -⟩ := h
      subst he
      push_neg at hc
      exact hc

lemma markedPop_reset (g : List Cell) :
    markedPop (g.map fun c => { c with currentElec := 0 }) = 0 := by
  induction g with
  | nil => rfl
  | cons c cs ih =>
    rw [markedPop] at ih ⊢
    simpa using ih

lemma markedPop_markAtLeast (i : ℚ) (g : List Cell)
    (h : ∀ c ∈ g, c.currentElec = 1 → i ≤ c.combinedWeight) :
    markedPop (markAtLeast i g) = elecPopAt g i := by
  induction g with
  | nil => rfl
  | cons c cs ih =>
    have hcs : ∀ c' ∈ cs, c'.currentElec = 1 → i ≤ c'.combinedWeight :=
      fun c' hc' => h c' (List.mem_cons_of_mem _ hc')
    by_cases hw : i ≤ c.combinedWeight
    · simp only [markAtLeast, List.map_cons, if_pos hw, markedPop, elecPopAt,
        List.filter_cons, decide_eq_true_eq, hw, if_pos, decide_True,
        List.map_cons, List.sum_cons]
      rw [markedPop, markAtLeast, elecPopAt] at ih
      simp [ih hcs]
    · have hne : ¬ c.currentElec = 1 := fun hc => hw (h c (by simp) hc)
      simp only [markAtLeast, List.map_cons, if_neg hw, markedPop, elecPopAt,
        List.filter_cons, decide_eq_true_eq, hw, hne, if_neg, decide_False]
      rw [markedPop, markAtLeast, elecPopAt] at ih
      simp [ih hcs, hne, hw]

lemma marked_markAtLeast (i : ℚ) (g : List Cell)
    (h : ∀ c ∈ g, c.currentElec = 1 → i ≤ c.combinedWeight) :
    ∀ c ∈ markAtLeast i g, c.currentElec = 1 → i ≤ c.combinedWeight := by
  intro c hc
  simp only [markAtLeast, List.mem_map] at hc
  obtain ⟨c0, hc0, hcc⟩ := hc
  by_cases hw : i ≤ c0.combinedWeight
  · rw [if_pos hw] at hcc
    intro _
    rw [← hcc]
    exact hw
  · rw [if_neg hw] at hcc
    subst hcc
    exact h c0 hc0

lemma currentElecLoop_markedPop (target : ℚ) :
    ∀ (fuel : ℕ) (i e : ℚ) (g : List Cell) (i' e' : ℚ) (g' : List Cell),
      (∀ c ∈ g, c.currentElec = 1 → i ≤ c.combinedWeight) →
      markedPop g = e →
      currentElecLoop target fuel i e g = some (i', e', g') →
      markedPop g' = e' := by
  intro fuel
  induction fuel with
  | zero => intro i e g i' e' g' _ _ h; simp [currentElecLoop] at h
  | succ n ih =>
    intro i e g i' e' g' hinv hmp h
    rw [currentElecLoop] at h
    by_cases hc : e ≤ target
    · rw [if_pos hc] at h
      have hstep : (1 : ℚ) / 10000 > 0 := by norm_num
      refine ih _ _ _ _ _ _ ?_ ?_ h
      · intro c hcmem hce
        have := marked_markAtLeast i g hinv c hcmem hce
        linarith
      · exact markedPop_markAtLeast i g hinv
    · rw [if_neg hc] at h
      simp only [Option.some.injEq, Prod.mk.injEq] at h
      obtain ⟨-, he, hg⟩ := h
      rw [← hg, hmp, he]

/-- C1 (amended): for a cell table with positive total calibrated
population and target rate in (0, 1), when `current_elec` terminates
the cumulative calibrated population of cells marked `Current_elec = 1`
is strictly GREATER than `target_rate` times the total calibrated
population (the loop stops the first time the electrified population
exceeds the target, so the final electrified fraction overshoots the
rate), and it is strictly greater than the electrified population one
threshold step before termination, which was still at most the target. -/
theorem current_elec_overshoots (s : Specs) (fuel : ℕ) (g : List Cell)
    (i' e' : ℚ) (g' : List Cell)
    (hpop : 0 < totalCalibPop g) (hr0 : 0 < s.elecRate) (hr1 : s.elecRate < 1)
    (hrun : current_elec s fuel g = some (i', e', g')) :
    markedPop g' = e' ∧
      currentElecTarget s g < markedPop g' ∧
      ∀ ePrev : ℚ, ePrev ≤ currentElecTarget s g → ePrev < markedPop g' := by
  rw [current_elec] at hrun
  have htarget : currentElecTarget s (g.map fun c => { c with currentElec := 0 }) =
      currentElecTarget s g := by
    rw [currentElecTarget, currentElecTarget, totalCalibPop_reset]
  rw [htarget] at hrun
  have hmp : markedPop (g.map fun c => { c with currentElec := 0 }) = 0 :=
    markedPop_reset g
  have hinv : ∀ c ∈ (g.map fun c => { c with currentElec := 0 }),
      c.currentElec = 1 → (1 : ℚ) ≤ c.combinedWeight := by
    intro c hc hce
    simp only [List.mem_map] at hc
    obtain ⟨c0, -, hcc⟩ := hc
    rw [← hcc] at hce
    simp at hce
  have hfinal : markedPop g' = e' :=
    currentElecLoop_markedPop _ fuel 1 0 _ i' e' g' hinv hmp hrun
  have hgt : currentElecTarget s g < e' :=
    currentElecLoop_final_gt _ fuel 1 0 _ i' e' g' hrun
  refine ⟨hfinal, by rw [hfinal]; exact hgt, ?_⟩
  intro ePrev hprev
  rw [hfinal]
  exact lt_of_le_of_lt hprev hgt

/-- C1 counterexample: a single cell of calibrated population 10 with
composite score 1 and `Elec_rate = 1/2`. `current_elec` terminates and
the marked population is 10, which is NOT `≤` the target `5`: the claim
that the electrified fraction ends `≤ target_rate` fails. -/
theorem current_elec_claim_false :
    current_elec ⟨1 / 2, 0, 0, 0, 0⟩ 2 [⟨10, 1, 0, 0, 0, 0, []⟩] =
      some (1 - 1 / 10000, 10, [⟨10, 1, 1, 0, 0, 0, []⟩]) ∧
      ¬ (markedPop [⟨10, 1, 1, 0, 0, 0, []⟩] ≤
          currentElecTarget ⟨1 / 2, 0, 0, 0, 0⟩ [⟨10, 1, 0, 0, 0, 0, []⟩]) := by
  constructor
  · norm_num [current_elec, currentElecLoop, currentElecTarget, totalCalibPop,
      elecPopAt, markAtLeast]
  · norm_num [markedPop, currentElecTarget, totalCalibPop]

/-- C1 witness. -/
theorem current_elec_overshoots_witness :
    0 < totalCalibPop [(⟨10, 1, 0, 0, 0, 0, []⟩ : Cell)] ∧
      currentElecTarget ⟨1 / 2, 0, 0, 0, 0⟩ [⟨10, 1, 0, 0, 0, 0, []⟩] <
        markedPop [⟨10, 1, 1, 0, 0, 0, []⟩] :=
  ⟨by norm_num [totalCalibPop],
    (current_elec_overshoots ⟨1 / 2, 0, 0, 0, 0⟩ 2 [⟨10, 1, 0, 0, 0, 0, []⟩]
      (1 - 1 / 10000) 10 [⟨10, 1, 1, 0, 0, 0, []⟩]
      (by norm_num [totalCalibPop]) (by norm_num) (by norm_num)
      (by norm_num [current_elec, currentElecLoop, currentElecTarget,
        totalCalibPop, elecPopAt, markAtLeast])).2.1⟩

/-! ## Maximum-Net-Benefit Allocator
(`OnSSTOVE.maximum_net_benefit`, onsstove.py lines 570-601) -/

/-- One output row of the allocator: the columns lines 570-601 write.
Technology names stand for the `net_benefit_<tech>` column names with
the prefix stripped, as on lines 574 and 586-587. -/
structure AllocRow where
  tech : String             -- "max_benefit_tech"
  netBenefit : ℚ            -- "maximum_net_benefit"
  calibratedPop : ℚ         -- "Calibrated_pop"
  elecPopCalib : ℚ          -- "Elec_pop_calib"
  households : ℚ            -- "Households"
  currentElec : ℕ           -- "Current_elec" (copied into the split row)
  deriving DecidableEq, Repr

/-- pandas `idxmax(axis=1)`/`max(axis=1)` over a row of net-benefit
columns: the first (in column order) name attaining the maximum, and
that maximum; `none` on an empty column list (pandas raises there). -/
def argmaxNB : List (String × ℚ) → Option (String × ℚ)
  | [] => none
  | p :: rest =>
    match argmaxNB rest with
    | none => some p
    | some q => if q.2 > p.2 then some q else some p

/-- `max_benefit_tech` of a row (lines 572-574). -/
def idxmaxTech (c : Cell) : String :=
  ((argmaxNB c.netBenefits).map Prod.fst).getD ""

/-- `maximum_net_benefit` of a row (line 575). -/
def maxNB (c : Cell) : ℚ :=
  ((argmaxNB c.netBenefits).map Prod.snd).getD 0

/-- The `current_elect` mask (lines 577-578): `Current_elec == 1`,
`Elec_pop_calib < Calibrated_pop`, and the chosen technology is
`Electricity`. -/
def splitCond (c : Cell) : Bool :=
  c.currentElec == 1 && decide (c.elecPopCalib < c.calibratedPop) &&
    (idxmaxTech c == "Electricity")

/-- `elect_fraction` (lines 580-581). -/
def electFraction (c : Cell) : ℚ := c.elecPopCalib / c.calibratedPop

/-- The unsplit output row of a cell (lines 571-575). -/
def baseRow (c : Cell) : AllocRow :=
  { tech := idxmaxTech c
    netBenefit := maxNB c
    calibratedPop := c.calibratedPop
    elecPopCalib := c.elecPopCalib
    households := c.households
    currentElec := c.currentElec }

/-- The in-place-scaled original row of a split cell (lines 582 and
598-600): net benefit, populations and households multiplied by
`elect_fraction`. -/
def gridRow (c : Cell) : AllocRow :=
  { tech := idxmaxTech c
    netBenefit := maxNB c * electFraction c
    calibratedPop := c.calibratedPop * electFraction c
    elecPopCalib := c.elecPopCalib * electFraction c
    households := c.households * electFraction c
    currentElec := c.currentElec }

/-- `second_benefit_cols` (lines 584-585): the net-benefit columns with
the first `net_benefit_Electricity` entry removed. -/
def secondBenefitCols (c : Cell) : List (String × ℚ) :=
  c.netBenefits.eraseP (fun p => p.1 == "Electricity")

/-- The appended `dff` row of a split cell (lines 586-596): second-best
technology, its net benefit and the population/household fields of the
pre-split cell scaled by `1 - elect_fraction`. -/
def secondRow (c : Cell) : AllocRow :=
  { tech := ((argmaxNB (secondBenefitCols c)).map Prod.fst).getD ""
    netBenefit :=
      ((argmaxNB (secondBenefitCols c)).map Prod.snd).getD 0 * (1 - electFraction c)
    calibratedPop := c.calibratedPop * (1 - electFraction c)
    elecPopCalib := c.elecPopCalib * (1 - electFraction c)
    households := c.households * (1 - electFraction c)
    currentElec := c.currentElec }

/-- `OnSSTOVE.maximum_net_benefit`: every row gets its argmax technology
and maximum net benefit; rows matching the partial-grid mask are scaled
in place and their unserved fractions are appended at the end of the
table (`self.gdf.append(dff)`, line 601). -/
def maximum_net_benefit (g : List Cell) : List AllocRow :=
  (g.map fun c => if splitCond c then gridRow c else baseRow c) ++
    ((g.filter splitCond).map secondRow)

/-- C2: for every cell the allocator splits, the calibrated population,
the households and the electrified population of the scaled original
row and of the appended row sum EXACTLY to the pre-split cell's values:
`p·f + p·(1−f) = p` holds exactly in the rational model. -/
theorem allocator_split_conservation (c : Cell) (h : splitCond c = true) :
    (gridRow c).calibratedPop + (secondRow c).calibratedPop = c.calibratedPop ∧
      (gridRow c).households + (secondRow c).households = c.households ∧
      (gridRow c).elecPopCalib + (secondRow c).elecPopCalib = c.elecPopCalib := by
  refine ⟨?_, ?_, ?_⟩ <;> simp only [gridRow, secondRow] <;> ring

/-- C2 witness. -/
theorem allocator_split_conservation_witness :
    splitCond ⟨100, 0, 1, 40, 10, 0, [("Electricity", 10), ("LPG", 6)]⟩ = true ∧
      (gridRow ⟨100, 0, 1, 40, 10, 0, [("Electricity", 10), ("LPG", 6)]⟩).calibratedPop +
        (secondRow ⟨100, 0, 1, 40, 10, 0, [("Electricity", 10), ("LPG", 6)]⟩).calibratedPop =
        (100 : ℚ) :=
  ⟨by norm_num [splitCond, idxmaxTech, argmaxNB],
    (allocator_split_conservation _
      (by norm_num [splitCond, idxmaxTech, argmaxNB])).1⟩

/-- C5: for a split cell, the original row's net benefit, population,
households and electrified population are scaled by `elect_fraction =
Elec_pop_calib / Calibrated_pop`; the appended row's technology is the
argmax over the non-grid net-benefit columns, with its net benefit and
its population/household fields scaled by `1 - elect_fraction`.
Concretely: a single cell with population 100, grid net benefit 10,
electrified population 40 and second-best net benefit 6 yields row A
(pop 40, tech Electricity, benefit 4) and row B (pop 60, tech LPG,
benefit 18/5 = 3.6). -/
theorem allocator_split_scaling (c : Cell) (h : splitCond c = true) :
    (electFraction c = c.elecPopCalib / c.calibratedPop ∧
      (gridRow c).netBenefit = maxNB c * electFraction c ∧
      (gridRow c).calibratedPop = c.calibratedPop * electFraction c ∧
      (gridRow c).households = c.households * electFraction c ∧
      (gridRow c).elecPopCalib = c.elecPopCalib * electFraction c ∧
      (secondRow c).tech = ((argmaxNB (secondBenefitCols c)).map Prod.fst).getD "" ∧
      (secondRow c).netBenefit =
        ((argmaxNB (secondBenefitCols c)).map Prod.snd).getD 0 * (1 - electFraction c) ∧
      (secondRow c).calibratedPop = c.calibratedPop * (1 - electFraction c) ∧
      (secondRow c).households = c.households * (1 - electFraction c)) ∧
    maximum_net_benefit [⟨100, 0, 1, 40, 10, 0, [("Electricity", 10), ("LPG", 6)]⟩] =
      [⟨"Electricity", 4, 40, 16, 4, 1⟩, ⟨"LPG", 18 / 5, 60, 24, 6, 1⟩] := by
  constructor
  · exact ⟨rfl, rfl, rfl, rfl, rfl, rfl, rfl, rfl, rfl⟩
  · norm_num [maximum_net_benefit, splitCond, idxmaxTech, argmaxNB, gridRow,
      secondRow, secondBenefitCols, baseRow, electFraction, maxNB, List.eraseP]

/-- C5 witness. -/
theorem allocator_split_scaling_witness :
    splitCond ⟨100, 0, 1, 40, 10, 0, [("Electricity", 10), ("LPG", 6)]⟩ = true ∧
      maximum_net_benefit [⟨100, 0, 1, 40, 10, 0, [("Electricity", 10), ("LPG", 6)]⟩] =
        [⟨"Electricity", 4, 40, 16, 4, 1⟩, ⟨"LPG", 18 / 5, 60, 24, 6, 1⟩] :=
  ⟨by norm_num [splitCond, idxmaxTech, argmaxNB],
    (allocator_split_scaling ⟨100, 0, 1, 40, 10, 0, [("Electricity", 10), ("LPG", 6)]⟩
      (by norm_num [splitCond, idxmaxTech, argmaxNB])).2⟩

/-! ## Electrification Calibrator Phase B
(`OnSSTOVE.final_elec`, onsstove.py lines 408-437) -/

/-- Line 412: `self.gdf["Elec_pop_calib"] = self.gdf["Calibrated_pop"]`
(note: for every row, also the never-electrified ones). -/
def finalElecInit (g : List Cell) : List Cell :=
  g.map fun c => { c with elecPopCalib := c.calibratedPop }

/-- The population target `final_elec` compares against on lines 417
and 421: `total_pop * elec_rate`, with `elec_rate` read from the same
`self.specs["Elec_rate"]` entry as in `current_elec` (line 410). -/
def finalElecTarget (s : Specs) (g : List Cell) : ℚ :=
  totalCalibPop g * s.elecRate

/-- Line 418: the decrement, computed once before the loop.
`self.gdf["Current_elec"].count()` is pandas `Series.count`: the number
of non-null entries of the column, i.e. the number of rows of the
table (the column holds only 0/1). The numerator is the line-417
`diff`: calibrated population of currently electrified cells minus the
target. -/
def finalElecFactor (s : Specs) (g : List Cell) : ℚ :=
  (markedPop g - finalElecTarget s g) / (g.length : ℚ)

/-- Line 430: `self.gdf.loc[Current_elec == 1, "Elec_pop_calib"].sum()`. -/
def activeElecPop (g : List Cell) : ℚ :=
  ((g.filter fun c => decide (c.currentElec = 1)).map Cell.elecPopCalib).sum

/-- One sweep of the loop body (lines 423-427): subtract `factor` from
`Elec_pop_calib` of every cell whose score lies in the band
`[self.i, i]`, then clamp every negative `Elec_pop_calib` to zero, then
set `Current_elec = 0` wherever `Elec_pop_calib == 0`. -/
def finalElecStep (iStored f iCur : ℚ) (g : List Cell) : List Cell :=
  ((g.map fun c =>
      if iStored ≤ c.combinedWeight ∧ c.combinedWeight ≤ iCur
      then { c with elecPopCalib := c.elecPopCalib - f } else c).map fun c =>
    if c.elecPopCalib < 0 then { c with elecPopCalib := 0 } else c).map fun c =>
    if c.elecPopCalib = 0 then { c with currentElec := 0 } else c

/-- Lines 432-433: the number of still-electrified cells in the band
(`new_bool = bool & new_bool; new_bool.sum()`). -/
def bandActiveCount (iStored iCur : ℚ) (g : List Cell) : ℕ :=
  (g.filter fun c => decide (c.currentElec = 1 ∧
    iStored ≤ c.combinedWeight ∧ c.combinedWeight ≤ iCur)).length

/-- The `while elec_pop > total_pop * elec_rate` loop (lines 421-434)
with explicit fuel: each iteration performs one sweep, recomputes the
electrified population from `Elec_pop_calib`, and advances the scanning
threshold `i` by one step when no still-electrified cell remains in the
band. -/
def finalElecLoop (target iStored f : ℚ) :
    ℕ → ℚ → ℚ → List Cell → Option (ℚ × List Cell)
  | 0, _, _, _ => none
  | fuel + 1, iCur, elecPop, g =>
    if target < elecPop then
      finalElecLoop target iStored f fuel
        (if bandActiveCount iStored iCur (finalElecStep iStored f iCur g) = 0
         then iCur + 1 / 10000 else iCur)
        (activeElecPop (finalElecStep iStored f iCur g))
        (finalElecStep iStored f iCur g)
    else
      some (iCur, g)

/-- Line 436: after the loop, zero `Elec_pop_calib` wherever
`Current_elec = 0`. -/
def finalElecFinish (g : List Cell) : List Cell :=
  g.map fun c => if c.currentElec = 0 then { c with elecPopCalib := 0 } else c

/-- `OnSSTOVE.final_elec` (lines 408-437): initialize `Elec_pop_calib`,
compute the fixed decrement, run the loop from threshold
`self.i + 0.0001` and the line-416 electrified population, then zero
the deactivated cells. `iStored` is the `self.i` retained by
`current_elec`. -/
def final_elec (s : Specs) (iStored : ℚ) (fuel : ℕ) (g : List Cell) :
    Option (List Cell) :=
  match finalElecLoop (finalElecTarget s (finalElecInit g)) iStored
      (finalElecFactor s (finalElecInit g)) fuel (iStored + 1 / 10000)
      (markedPop (finalElecInit g)) (finalElecInit g) with
  | none => none
  | some (_, g') => some (finalElecFinish g')

/-- C10: `current_elec` (line 391) and `final_elec` (line 410) read the
same `specs["Elec_rate"]` entry, so the population target of Phase A's
loop guard and the population target of Phase B's loop guard are one
and the same value for every specs table and cell table. -/
theorem phases_share_target (s : Specs) (g : List Cell) :
    currentElecTarget s g = finalElecTarget s g ∧
      finalElecTarget s g = totalCalibPop g * s.elecRate :=
  ⟨rfl, rfl⟩

/-- C3 (amended): the decrement of `final_elec` is uniform and fixed:
it is computed once, before the loop, as (initial electrified
calibrated population − target) divided by the number of ROWS of the
table — pandas `Series.count` counts all non-null entries of
`Current_elec`, not the currently electrified cells — and each sweep
subtracts exactly that factor from `Elec_pop_calib` of exactly the
cells in the current threshold band, clamps any negative value to
zero, and deactivates (sets `Current_elec = 0` for) cells that reached
zero. -/
lemma clamp_deactivate_cellwise (c : Cell) (v : ℚ) :
    (fun c => if c.elecPopCalib = 0 then { c with currentElec := 0 } else c)
      ((fun c => if c.elecPopCalib < 0 then { c with elecPopCalib := 0 } else c)
        { c with elecPopCalib := v }) =
      { c with elecPopCalib := max 0 v,
               currentElec := if max 0 v = 0 then 0 else c.currentElec } := by
  rcases lt_or_le v 0 with hlt | hge
  · simp [hlt, max_eq_left (le_of_lt hlt)]
  · have hnlt : ¬ (v < 0) := not_lt.mpr hge
    by_cases hz : v = 0 <;> simp [hnlt, hz, max_eq_right hge]

theorem final_elec_step_description (s : Specs) (iStored f iCur : ℚ)
    (g : List Cell) (h : (g.length : ℚ) ≠ 0) :
    finalElecFactor s g * (g.length : ℚ) = markedPop g - finalElecTarget s g ∧
      finalElecStep iStored f iCur g = g.map fun c =>
        { c with
          elecPopCalib :=
            max 0 (if iStored ≤ c.combinedWeight ∧ c.combinedWeight ≤ iCur
                   then c.elecPopCalib - f else c.elecPopCalib),
          currentElec :=
            if max 0 (if iStored ≤ c.combinedWeight ∧ c.combinedWeight ≤ iCur
                      then c.elecPopCalib - f else c.elecPopCalib) = 0
            then 0 else c.currentElec } := by
  constructor
  · rw [finalElecFactor, div_mul_cancel₀ _ h]
  · rw [finalElecStep]
    simp only [List.map_map]
    apply List.map_congr_left
    intro c _
    by_cases hband : iStored ≤ c.combinedWeight ∧ c.combinedWeight ≤ iCur
    · have h1 : (if iStored ≤ c.combinedWeight ∧ c.combinedWeight ≤ iCur
          then { c with elecPopCalib := c.elecPopCalib - f } else c) =
          { c with elecPopCalib := c.elecPopCalib - f } := if_pos hband
      simp only [Function.comp, h1, if_pos hband]
      exact clamp_deactivate_cellwise c (c.elecPopCalib - f)
    · have h1 : (if iStored ≤ c.combinedWeight ∧ c.combinedWeight ≤ iCur
          then { c with elecPopCalib := c.elecPopCalib - f } else c) = c :=
        if_neg hband
      have h2 : c = { c with elecPopCalib := c.elecPopCalib } := rfl
      simp only [Function.comp, h1, if_neg hband]
      rw [h2]
      exact clamp_deactivate_cellwise c c.elecPopCalib

/-- C3 counterexample: two cells, only one of them electrified, total
population 20, `Elec_rate = 1/4`, surplus 5. The code's factor is
`5 / 2 = 5/2` (divided by the number of rows of the table); the claim's
factor, surplus divided by the number of currently-electrified cells,
is `5 / 1 = 5`; they differ. -/
theorem final_elec_factor_counterexample :
    finalElecFactor ⟨1 / 4, 0, 0, 0, 0⟩
        [⟨10, 1, 1, 10, 0, 0, []⟩, ⟨10, 0, 0, 10, 0, 0, []⟩] = 5 / 2 ∧
      (markedPop [(⟨10, 1, 1, 10, 0, 0, []⟩ : Cell), ⟨10, 0, 0, 10, 0, 0, []⟩] -
          finalElecTarget ⟨1 / 4, 0, 0, 0, 0⟩
            [⟨10, 1, 1, 10, 0, 0, []⟩, ⟨10, 0, 0, 10, 0, 0, []⟩]) /
        ((([(⟨10, 1, 1, 10, 0, 0, []⟩ : Cell), ⟨10, 0, 0, 10, 0, 0, []⟩].filter
            fun c => decide (c.currentElec = 1)).length : ℚ)) = 5 ∧
      (5 / 2 : ℚ) ≠ 5 := by
  refine ⟨?_, ?_, by norm_num⟩
  · norm_num [finalElecFactor, markedPop, finalElecTarget, totalCalibPop]
  · norm_num [markedPop, finalElecTarget, totalCalibPop]

/-- C3 witness. -/
theorem final_elec_step_description_witness :
    (([(⟨10, 1, 1, 10, 0, 0, []⟩ : Cell), ⟨10, 0, 0, 10, 0, 0, []⟩].length : ℚ) ≠ 0) ∧
      finalElecFactor ⟨1 / 4, 0, 0, 0, 0⟩
          [⟨10, 1, 1, 10, 0, 0, []⟩, ⟨10, 0, 0, 10, 0, 0, []⟩] *
        (([(⟨10, 1, 1, 10, 0, 0, []⟩ : Cell), ⟨10, 0, 0, 10, 0, 0, []⟩].length : ℚ)) =
        markedPop [(⟨10, 1, 1, 10, 0, 0, []⟩ : Cell), ⟨10, 0, 0, 10, 0, 0, []⟩] -
          finalElecTarget ⟨1 / 4, 0, 0, 0, 0⟩
            [⟨10, 1, 1, 10, 0, 0, []⟩, ⟨10, 0, 0, 10, 0, 0, []⟩] :=
  ⟨by norm_num,
    (final_elec_step_description ⟨1 / 4, 0, 0, 0, 0⟩ 0 (5 / 2) 0
      [⟨10, 1, 1, 10, 0, 0, []⟩, ⟨10, 0, 0, 10, 0, 0, []⟩] (by norm_num)).1⟩

/-! ## The electrified-population invariant (C4) -/

/-- The invariant of claim C4 on a cell of the working table. -/
def cellInv (c : Cell) : Prop :=
  0 ≤ c.elecPopCalib ∧ c.elecPopCalib ≤ c.calibratedPop

/-- The invariant of claim C4 on an allocator output row. -/
def rowInv (r : AllocRow) : Prop :=
  0 ≤ r.elecPopCalib ∧ r.elecPopCalib ≤ r.calibratedPop

lemma cellInv_init (g : List Cell) (h : ∀ c ∈ g, 0 ≤ c.calibratedPop) :
    ∀ c ∈ finalElecInit g, cellInv c := by
  intro c hc
  simp only [finalElecInit, List.mem_map] at hc
  obtain ⟨c0, hc0, rfl⟩ := hc
  exact ⟨h c0 hc0, le_refl _⟩

lemma cellInv_clamp (c : Cell) (v : ℚ) (hC : 0 ≤ c.calibratedPop)
    (hv : v ≤ c.calibratedPop) :
    cellInv ((fun c => if c.elecPopCalib = 0 then { c with currentElec := 0 } else c)
      ((fun c => if c.elecPopCalib < 0 then { c with elecPopCalib := 0 } else c)
        { c with elecPopCalib := v })) := by
  rw [clamp_deactivate_cellwise]
  exact ⟨le_max_left 0 _, max_le hC hv⟩

lemma cellInv_step (iStored f iCur : ℚ) (g : List Cell) (hf : 0 ≤ f)
    (h : ∀ c ∈ g, cellInv c) :
    ∀ c ∈ finalElecStep iStored f iCur g, cellInv c := by
  intro c hc
  rw [finalElecStep] at hc
  simp only [List.map_map, List.mem_map, Function.comp] at hc
  obtain ⟨c0, hc0, rfl⟩ := hc
  obtain ⟨h0, h1⟩ := h c0 hc0
  have hC : 0 ≤ c0.calibratedPop := le_trans h0 h1
  by_cases hband : iStored ≤ c0.combinedWeight ∧ c0.combinedWeight ≤ iCur
  · rw [if_pos hband]
    exact cellInv_clamp c0 (c0.elecPopCalib - f) hC (by linarith)
  · rw [if_neg hband]
    exact cellInv_clamp c0 c0.elecPopCalib hC h1

lemma cellInv_finish (g : List Cell) (h : ∀ c ∈ g, cellInv c) :
    ∀ c ∈ finalElecFinish g, cellInv c := by
  intro c hc
  simp only [finalElecFinish, List.mem_map] at hc
  obtain ⟨c0, hc0, rfl⟩ := hc
  obtain ⟨h0, h1⟩ := h c0 hc0
  by_cases hz : c0.currentElec = 0
  · rw [if_pos hz]
    exact ⟨le_refl 0, le_trans h0 h1⟩
  · rw [if_neg hz]
    exact ⟨h0, h1⟩

lemma factor_nonneg (s : Specs) (g : List Cell)
    (h : finalElecTarget s g < markedPop g) : 0 ≤ finalElecFactor s g :=
  div_nonneg (by linarith) (Nat.cast_nonneg _)

lemma splitCond_lt (c : Cell) (hs : splitCond c = true) :
    c.elecPopCalib < c.calibratedPop := by
  simp only [splitCond, Bool.and_eq_true, decide_eq_true_eq] at hs
  exact hs.1.2

lemma rowInv_alloc (g : List Cell) (h : ∀ c ∈ g, cellInv c) :
    ∀ r ∈ maximum_net_benefit g, rowInv r := by
  intro r hr
  rw [maximum_net_benefit] at hr
  rcases List.mem_append.mp hr with hr | hr
  · simp only [List.mem_map] at hr
    obtain ⟨c, hc, rfl⟩ := hr
    obtain ⟨h0, h1⟩ := h c hc
    by_cases hs : splitCond c = true
    · rw [if_pos hs]
      have hEC : c.elecPopCalib < c.calibratedPop := splitCond_lt c hs
      have hCpos : 0 < c.calibratedPop := lt_of_le_of_lt h0 hEC
      have hfrac0 : 0 ≤ electFraction c := div_nonneg h0 (le_of_lt hCpos)
      exact ⟨mul_nonneg h0 hfrac0, mul_le_mul_of_nonneg_right h1 hfrac0⟩
    · rw [if_neg hs]
      exact ⟨h0, h1⟩
  · simp only [List.mem_map, List.mem_filter] at hr
    obtain ⟨c, ⟨hc, hs⟩, rfl⟩ := hr
    obtain ⟨h0, h1⟩ := h c hc
    have hEC : c.elecPopCalib < c.calibratedPop := splitCond_lt c hs
    have hCpos : 0 < c.calibratedPop := lt_of_le_of_lt h0 hEC
    have hfrac1 : electFraction c < 1 := (div_lt_one hCpos).mpr hEC
    have hrest : 0 ≤ 1 - electFraction c := by linarith
    exact ⟨mul_nonneg h0 hrest, mul_le_mul_of_nonneg_right h1 hrest⟩

/-- C4: the invariant `0 ≤ Elec_pop_calib ≤ Calibrated_pop` holds after
every step of `final_elec` and of `maximum_net_benefit`: the line-412
initialization establishes it on every cell (given nonnegative
calibrated populations); the decrement is nonnegative whenever the loop
guard that triggers a sweep holds; every sweep (subtract, clamp,
deactivate) preserves it on every cell; the final line-436 zeroing
preserves it; and every allocator output row satisfies it whenever the
input table does. -/
theorem elec_pop_invariant :
    (∀ g : List Cell, (∀ c ∈ g, 0 ≤ c.calibratedPop) →
        ∀ c ∈ finalElecInit g, cellInv c) ∧
      (∀ (s : Specs) (g : List Cell),
        finalElecTarget s g < markedPop g → 0 ≤ finalElecFactor s g) ∧
      (∀ (iStored f iCur : ℚ) (g : List Cell), 0 ≤ f → (∀ c ∈ g, cellInv c) →
        ∀ c ∈ finalElecStep iStored f iCur g, cellInv c) ∧
      (∀ g : List Cell, (∀ c ∈ g, cellInv c) →
        ∀ c ∈ finalElecFinish g, cellInv c) ∧
      (∀ g : List Cell, (∀ c ∈ g, cellInv c) →
        ∀ r ∈ maximum_net_benefit g, rowInv r) :=
  ⟨cellInv_init, factor_nonneg, cellInv_step, cellInv_finish, rowInv_alloc⟩

/-- C4 witness. -/
theorem elec_pop_invariant_witness :
    cellInv ⟨10, 1, 1, 10, 4, 0, []⟩ :=
  elec_pop_invariant.1 [⟨10, 1, 1, 4, 4, 0, []⟩]
    (by intro c hc; simp only [List.mem_singleton] at hc; subst hc; norm_num)
    ⟨10, 1, 1, 10, 4, 0, []⟩ (by simp [finalElecInit])

/-! ## Urban Classifier and household derivation
(`OnSSTOVE.calibrate_urban_manual`, lines 520-546, and
`OnSSTOVE.number_of_households`, lines 549-555) -/

/-- One classification pass of `calibrate_urban_manual` (lines 530-534)
at scaling `factor`: `IsUrban` is reset to 0, set to 1 where
`Calibrated_pop > 5000·factor` and density `> 350·factor`, then
overwritten to 2 where `Calibrated_pop > 50000·factor` and density
`> 1500·factor`. `area` is `cell_size[0]² / 1000000` (km² per cell). -/
def classifyCell (factor area : ℚ) (c : Cell) : Cell :=
  { c with
    isUrban :=
      if 50000 * factor < c.calibratedPop ∧ 1500 * factor < c.calibratedPop / area
      then 2
      else if 5000 * factor < c.calibratedPop ∧ 350 * factor < c.calibratedPop / area
      then 1 else 0 }

/-- `OnSSTOVE.number_of_households` (lines 549-555):
`Households = Calibrated_pop / Rural_HHsize` where `IsUrban < 20` and
`Calibrated_pop / Urban_HHsize` where `IsUrban > 20`; a cell with
`IsUrban = 20` exactly is left untouched. -/
def number_of_households (s : Specs) (g : List Cell) : List Cell :=
  g.map fun c =>
    if c.isUrban < 20 then { c with households := c.calibratedPop / s.ruralHHsize }
    else if 20 < c.isUrban then { c with households := c.calibratedPop / s.urbanHHsize }
    else c

/-- C6 (amended): after classification by the manual urban classifier,
EVERY cell — urban (`IsUrban = 2`) and peri-urban (`IsUrban = 1`) cells
included — receives `Households = Calibrated_pop / Rural_HHsize`: the
manual classes 0, 1, 2 are all below the `IsUrban < 20` cutoff of
`number_of_households` (whose `> 20` branch is aimed at GHS-SMOD codes)
, so the urban household size `Urban_HHsize` is never used. Every
classified cell does receive a `Households` value. -/
theorem households_always_rural (s : Specs) (factor area : ℚ)
    (g : List Cell) :
    ∀ c ∈ number_of_households s (g.map (classifyCell factor area)),
      c.households = c.calibratedPop / s.ruralHHsize ∧ c.isUrban < 20 := by
  intro c hc
  simp only [number_of_households, List.map_map, List.mem_map,
    Function.comp] at hc
  obtain ⟨c0, hc0, rfl⟩ := hc
  have hlt : (classifyCell factor area c0).isUrban < 20 := by
    rw [classifyCell]
    by_cases h2 : 50000 * factor < c0.calibratedPop ∧
        1500 * factor < c0.calibratedPop / area
    · simp [h2]
    · by_cases h1 : 5000 * factor < c0.calibratedPop ∧
          350 * factor < c0.calibratedPop / area <;> simp [h2, h1]
  rw [if_pos hlt]
  exact ⟨rfl, hlt⟩

/-- C6 counterexample: a cell of calibrated population 100000 on a 1 km²
cell is classified urban (`IsUrban = 2`) by the manual classifier, yet
with `Rural_HHsize = 5` and `Urban_HHsize = 2` its derived household
count is `100000 / 5 = 20000`, not `100000 / 2 = 50000` as the claim's
urban-class selection requires. -/
theorem households_urban_counterexample :
    number_of_households ⟨0, 5, 2, 0, 0⟩
        ([(⟨100000, 0, 0, 0, 0, 0, []⟩ : Cell)].map (classifyCell 1 1)) =
      [⟨100000, 0, 0, 0, 20000, 2, []⟩] ∧
      (20000 : ℚ) ≠ 100000 / 2 := by
  constructor
  · norm_num [number_of_households, classifyCell]
  · norm_num

/-- C6 witness. -/
theorem households_always_rural_witness :
    (⟨100000, 0, 0, 0, 20000, 2, []⟩ : Cell).households =
        (⟨100000, 0, 0, 0, 20000, 2, []⟩ : Cell).calibratedPop /
          (⟨0, 5, 2, 0, 0⟩ : Specs).ruralHHsize ∧
      (⟨100000, 0, 0, 0, 20000, 2, []⟩ : Cell).isUrban < 20 :=
  households_always_rural ⟨0, 5, 2, 0, 0⟩ 1 1 [⟨100000, 0, 0, 0, 0, 0, []⟩]
    ⟨100000, 0, 0, 0, 20000, 2, []⟩
    (by norm_num [number_of_households, classifyCell])

/-- `pop_urb` (line 536): calibrated population of the cells classified
`IsUrban > 1`. -/
def urbanPop (g : List Cell) : ℚ :=
  ((g.filter fun c => decide (1 < c.isUrban)).map Cell.calibratedPop).sum

/-- The `while abs(urban_modelled - urban_current) > 0.01` loop of
`calibrate_urban_manual` (lines 527-546), with its built-in break when
the incremented counter exceeds 500. The fuel argument only makes the
recursion structural: with fuel above the cap the result no longer
depends on it (see `calibrate_urban_terminates`). Returns the final
factor, modelled share and iteration counter. Each iteration classifies
the table at the current factor, recomputes the modelled share
`pop_urb / pop_tot` (with `pop_tot = specs["Population_start_year"]`),
and multiplies the factor by 11/10 when the share exceeds the target
and by 9/10 otherwise. -/
def urbanLoop (g : List Cell) (area popTot urbanCurrent : ℚ) :
    ℕ → ℕ → ℚ → ℚ → ℚ × ℚ × ℕ
  | 0, i, factor, modelled => (factor, modelled, i)
  | fuel + 1, i, factor, modelled =>
    if 1 / 100 < |modelled - urbanCurrent| then
      if 500 < i + 1 then
        (if urbanCurrent < urbanPop (g.map (classifyCell factor area)) / popTot
         then factor * (11 / 10) else factor * (9 / 10),
         urbanPop (g.map (classifyCell factor area)) / popTot, i + 1)
      else
        urbanLoop g area popTot urbanCurrent fuel (i + 1)
          (if urbanCurrent < urbanPop (g.map (classifyCell factor area)) / popTot
           then factor * (11 / 10) else factor * (9 / 10))
          (urbanPop (g.map (classifyCell factor area)) / popTot)
    else (factor, modelled, i)

/-- `OnSSTOVE.calibrate_urban_manual` (lines 520-546): start from
`factor = 1`, `urban_modelled = 2`, `i = 0`; 502 units of fuel are
strictly more than the loop can consume. -/
def calibrate_urban_manual (s : Specs) (area : ℚ) (g : List Cell) :
    ℚ × ℚ × ℕ :=
  urbanLoop g area s.populationStartYear s.urbanStart 502 0 1 2

lemma urbanLoop_counter_le (g : List Cell) (area popTot u : ℚ) :
    ∀ (fuel i : ℕ) (factor modelled : ℚ), i ≤ 500 →
      (urbanLoop g area popTot u fuel i factor modelled).2.2 ≤ 501 := by
  intro fuel
  induction fuel with
  | zero =>
    intro i f m hi
    rw [urbanLoop]
    show i ≤ 501
    omega
  | succ n ih =>
    intro i f m hi
    rw [urbanLoop]
    by_cases hcond : 1 / 100 < |m - u|
    · rw [if_pos hcond]
      by_cases hbreak : 500 < i + 1
      · rw [if_pos hbreak]
        show i + 1 ≤ 501
        omega
      · rw [if_neg hbreak]
        exact ih (i + 1) _ _ (by omega)
    · rw [if_neg hcond]
      show i ≤ 501
      omega

lemma urbanLoop_fuel_stable (g : List Cell) (area popTot u : ℚ) :
    ∀ (fuel₁ fuel₂ i : ℕ) (factor modelled : ℚ),
      501 - i < fuel₁ → 501 - i < fuel₂ →
      urbanLoop g area popTot u fuel₁ i factor modelled =
        urbanLoop g area popTot u fuel₂ i factor modelled := by
  intro fuel₁
  induction fuel₁ with
  | zero => intro fuel₂ i f m h1 h2; omega
  | succ n ih =>
    intro fuel₂ i f m h1 h2
    cases fuel₂ with
    | zero => omega
    | succ n₂ =>
      rw [urbanLoop, urbanLoop]
      by_cases hcond : 1 / 100 < |m - u|
      · rw [if_pos hcond, if_pos hcond]
        by_cases hbreak : 500 < i + 1
        · rw [if_pos hbreak, if_pos hbreak]
        · rw [if_neg hbreak, if_neg hbreak]
          exact ih n₂ (i + 1) _ _ (by omega) (by omega)
      · rw [if_neg hcond, if_neg hcond]

/-- C9 (amended): the factor search of `calibrate_urban_manual` always
terminates, stopping when the modelled urban share is within 1/100 of
the target or when the iteration cap fires — but the cap admits up to
501 body executions, not 500: the break `if i > 500` fires only after
the 501st increment. The final counter never exceeds 501, the result is
independent of the fuel once the fuel exceeds the cap (genuine
termination), and each non-final iteration multiplies the factor by
11/10 when the modelled share exceeds the target and by 9/10
otherwise. -/
theorem calibrate_urban_terminates (s : Specs) (area : ℚ) (g : List Cell) :
    (calibrate_urban_manual s area g).2.2 ≤ 501 ∧
      (∀ fuel : ℕ, 501 < fuel →
        urbanLoop g area s.populationStartYear s.urbanStart fuel 0 1 2 =
          calibrate_urban_manual s area g) ∧
      (∀ (fuel i : ℕ) (factor modelled : ℚ),
        1 / 100 < |modelled - s.urbanStart| → i + 1 ≤ 500 →
        urbanLoop g area s.populationStartYear s.urbanStart (fuel + 1) i
            factor modelled =
          urbanLoop g area s.populationStartYear s.urbanStart fuel (i + 1)
            (if s.urbanStart <
                urbanPop (g.map (classifyCell factor area)) / s.populationStartYear
             then factor * (11 / 10) else factor * (9 / 10))
            (urbanPop (g.map (classifyCell factor area)) / s.populationStartYear)) := by
  refine ⟨urbanLoop_counter_le g area _ _ 502 0 1 2 (by omega), ?_, ?_⟩
  · intro fuel hfuel
    exact urbanLoop_fuel_stable g area _ _ fuel 502 0 1 2 (by omega) (by omega)
  · intro fuel i factor modelled hcond hle
    rw [urbanLoop, if_pos hcond, if_neg (by omega)]

lemma urbanLoop_nil_hits_cap :
    ∀ (fuel i : ℕ) (factor modelled : ℚ), 1 / 100 < |modelled - 1 / 2| →
      i ≤ 500 → 500 - i < fuel →
      (urbanLoop [] 1 100 (1 / 2) fuel i factor modelled).2.2 = 501 := by
  intro fuel
  induction fuel with
  | zero => intro i f m hm hi hfuel; omega
  | succ n ih =>
    intro i f m hm hi hfuel
    rw [urbanLoop, if_pos hm]
    by_cases hbreak : 500 < i + 1
    · rw [if_pos hbreak]
      show i + 1 = 501
      omega
    · rw [if_neg hbreak]
      have hzero : urbanPop (List.map (classifyCell f 1) []) / 100 = 0 := by
        simp [urbanPop]
      rw [hzero]
      refine ih (i + 1) _ 0 ?_ (by omega) (by omega)
      rw [zero_sub, abs_neg, abs_of_pos (by norm_num : (0 : ℚ) < 1 / 2)]
      norm_num

/-- C9 counterexample: on an empty cell table with target share 1/2 the
modelled share is always 0, the search never converges, and the loop
body executes 501 times — the exit counter is 501, contradicting the
claimed cap of "at most 500 iterations". -/
theorem calibrate_urban_cap_counterexample :
    (calibrate_urban_manual ⟨0, 0, 0, 100, 1 / 2⟩ 1 []).2.2 = 501 ∧
      ¬ ((calibrate_urban_manual ⟨0, 0, 0, 100, 1 / 2⟩ 1 []).2.2 ≤ 500) := by
  have h : (calibrate_urban_manual ⟨0, 0, 0, 100, 1 / 2⟩ 1 []).2.2 = 501 :=
    urbanLoop_nil_hits_cap 502 0 1 2
      (by rw [abs_of_pos (by norm_num : (0 : ℚ) < 2 - 1 / 2)]; norm_num)
      (by omega) (by omega)
  exact ⟨h, by omega⟩

/-- C9 witness. -/
theorem calibrate_urban_terminates_witness :
    urbanLoop [] 1 (100 : ℚ) (1 / 2) 600 0 1 2 =
      calibrate_urban_manual ⟨0, 0, 0, 100, 1 / 2⟩ 1 [] :=
  (calibrate_urban_terminates ⟨0, 0, 0, 100, 1 / 2⟩ 1 []).2.1 600 (by omega)
